import Mathlib

/-!
Verification of the sapio script core: the numeric stack encoding
(`CScriptNum`), the opcode interpreter (`handle` / `interpret`), the
condition stack, the script buffer iteration (`raw_iter` / cooked
iteration), and the script analyzers (`GetSigOpCount`, `FindAndDelete`).

Bytes are modelled as natural numbers (each < 256 where it matters); byte
strings as `List Nat`.  The execution stack is modelled with its top at the
head of the list (Python appends and pops at the end of the list).
Fallible code is modelled with `Option` / `Except`.
-/

namespace Sapio

/-! ### Numeric stack encoding (`CScriptNum`, script.py lines 390-435) -/

/-- Little-endian byte decomposition of a natural number: the
`while absvalue: r.append(absvalue & 0xFF); absvalue >>= 8` loop of
`CScriptNum.encode`.  The first argument is structural fuel (any value
at least `v` gives the same result; `leEnc` below passes `v` itself). -/
def leEncAux : Nat → Nat → List Nat
  | _, 0 => []
  | 0, _ + 1 => []
  | f + 1, v + 1 => ((v + 1) % 256) :: leEncAux f ((v + 1) / 256)

/-- Little-endian byte decomposition of a natural number (the magnitude
loop of `CScriptNum.encode`). -/
def leEnc (v : Nat) : List Nat := leEncAux v v

/-- Little-endian reconstruction: the `result |= int(byte) << 8 * i` loop of
`CScriptNum.decode`. -/
def leDec : List Nat → Nat
  | [] => 0
  | b :: bs => b + 256 * leDec bs

namespace CScriptNum

/-- The payload of `CScriptNum.encode` (the bytearray `r` after sign
adjustment, before the length prefix is prepended). -/
def payload (n : Int) : List Nat :=
  if n = 0 then []
  else
    let neg := n < 0
    let r := leEnc n.natAbs
    if r.getLastD 0 &&& 0x80 ≠ 0 then
      r ++ [if neg then 0x80 else 0]
    else if neg then
      r.dropLast ++ [r.getLastD 0 ||| 0x80]
    else r

/-- `CScriptNum.encode` (script.py lines 396-410): minimal sign-magnitude
little-endian encoding with a one-byte length prefix.  Returns `none` when
the payload does not fit a one-byte prefix (`bytes([len(r)])` raises). -/
def encode (n : Int) : Option (List Nat) :=
  if n = 0 then some []
  else
    let r := payload n
    if r.length ≤ 0xFF then some (r.length :: r) else none

/-- `CScriptNum.decode` (script.py lines 412-426): strips the assumed
one-byte length prefix (`value = vch[1:]`), reconstructs the little-endian
magnitude, and if the top bit of the final byte is set, masks it off and
negates. -/
def decode (vch : List Nat) : Int :=
  let value := vch.drop 1
  if value.length = 0 then 0
  else
    let result := leDec value
    if 0x80 ≤ value.getLastD 0 then
      let num_mask := (2 ^ (value.length * 8) - 1) >>> 1;
      -((result &&& num_mask : Nat) : Int)
    else (result : Int)

/-- `min_int64` from static_types. -/
def min_int64 : Int := -(2 ^ 63)

/-- `max_int64` from static_types. -/
def max_int64 : Int := 2 ^ 63 - 1

/-- `CScriptNum.__sub__` (script.py lines 428-435): checked subtraction,
`none` models the failing `assert` at the signed 64-bit boundary. -/
def sub (a rhs : Int) : Option Int :=
  if rhs = 0 ∨ (rhs > 0 ∧ a ≥ min_int64 + rhs) ∨ (rhs < 0 ∧ a ≤ max_int64 + rhs)
  then some (a - rhs) else none

end CScriptNum

/-! ### Branch-state tracker (`ConditionStack`, opcodes.py lines 184-219) -/

/-- `ConditionStack.NO_FALSE = max_uint32` (from static_types). -/
def NO_FALSE : Nat := 2 ^ 32 - 1

/-- The condition stack: an integer depth and the position of the first
false branch (opcodes.py lines 184-219). -/
structure ConditionStack where
  stack_size : Nat
  first_false_position : Nat
deriving DecidableEq, Repr

namespace ConditionStack

/-- `ConditionStack.__init__`. -/
def init : ConditionStack := ⟨0, NO_FALSE⟩

/-- `ConditionStack.empty`. -/
def empty (c : ConditionStack) : Bool := c.stack_size = 0

/-- `ConditionStack.all_true`. -/
def all_true (c : ConditionStack) : Bool := c.first_false_position = NO_FALSE

/-- `ConditionStack.push_back`. -/
def push_back (c : ConditionStack) (b : Bool) : ConditionStack :=
  { stack_size := c.stack_size + 1
    first_false_position :=
      if c.first_false_position = NO_FALSE ∧ ¬b then c.stack_size
      else c.first_false_position }

/-- `ConditionStack.pop_back`; `none` models the raised
`ConditionStackError` when the stack is empty. -/
def pop_back (c : ConditionStack) : Option ConditionStack :=
  if c.stack_size > 0 then
    let sz := c.stack_size - 1
    some ⟨sz, if c.first_false_position = sz then NO_FALSE else c.first_false_position⟩
  else none

/-- `ConditionStack.toggle_top`; `none` models the raised
`ConditionStackError` when the stack is empty. -/
def toggle_top (c : ConditionStack) : Option ConditionStack :=
  if c.stack_size > 0 then
    if c.first_false_position = NO_FALSE then
      some ⟨c.stack_size, c.stack_size - 1⟩
    else if c.first_false_position = c.stack_size - 1 then
      some ⟨c.stack_size, NO_FALSE⟩
    else some c
  else none

end ConditionStack

/-- The states reachable from the initial condition stack by non-failing
`push_back` / `pop_back` / `toggle_top` operations. -/
inductive ReachableCS : ConditionStack → Prop
  | init : ReachableCS ConditionStack.init
  | push (c : ConditionStack) (b : Bool) : ReachableCS c → ReachableCS (c.push_back b)
  | pop (c c' : ConditionStack) : ReachableCS c → c.pop_back = some c' → ReachableCS c'
  | toggle (c c' : ConditionStack) : ReachableCS c → c.toggle_top = some c' → ReachableCS c'

/-! ### Opcode byte values (script.py lines 113-251; the subset used by the
interpreter together with the analyzers' opcodes) -/

def OP_0 : Nat := 0x00
def OP_PUSHDATA1 : Nat := 0x4C
def OP_PUSHDATA2 : Nat := 0x4D
def OP_PUSHDATA4 : Nat := 0x4E
def OP_1NEGATE : Nat := 0x4F
def OP_1 : Nat := 0x51
def OP_16 : Nat := 0x60
def OP_IF : Nat := 0x63
def OP_NOTIF : Nat := 0x64
def OP_ELSE : Nat := 0x67
def OP_ENDIF : Nat := 0x68
def OP_VERIFY : Nat := 0x69
def OP_IFDUP : Nat := 0x73
def OP_DROP : Nat := 0x75
def OP_DUP : Nat := 0x76
def OP_EQUALVERIFY : Nat := 0x88
def OP_1SUB : Nat := 0x8C
def OP_WITHIN : Nat := 0xA5
def OP_SHA256 : Nat := 0xA8
def OP_CHECKSIG : Nat := 0xAC
def OP_CHECKSIGVERIFY : Nat := 0xAD
def OP_CHECKMULTISIG : Nat := 0xAE
def OP_CHECKMULTISIGVERIFY : Nat := 0xAF
def OP_CHECKLOCKTIMEVERIFY : Nat := 0xB1
def OP_CHECKSEQUENCEVERIFY : Nat := 0xB2
def OP_CHECKTEMPLATEVERIFY : Nat := 0xB3
def OP_INVALIDOPCODE : Nat := 0xFF

/-! ### Execution engine (`handle` / `interpret`, opcodes.py lines 47-231) -/

/-- `ZERO_enc = CScriptNum.encode(CScriptNum(0))` (opcodes.py line 50). -/
def ZERO_enc : List Nat := (CScriptNum.encode 0).getD []

/-- `ONE_enc = CScriptNum.encode(CScriptNum(1))` (opcodes.py line 49). -/
def ONE_enc : List Nat := (CScriptNum.encode 1).getD []

/-- `bool_of_stack_item` (opcodes.py lines 53-59): a byte string is true
unless every byte is zero, except that a single trailing 0x80 after only
zeroes is false ("negative zero"). -/
def bool_of_stack_item : List Nat → Bool
  | [] => false
  | c :: rest =>
    if c ≠ 0 then
      if rest = [] ∧ c = 0x80 then false else true
    else bool_of_stack_item rest

/-- A cooked script item as consumed by `handle`: raw bytes, a decoded
small integer, or an opcode (`Union[CScriptOp, int, bytes]`). -/
inductive SItem where
  | data (bs : List Nat)
  | num (n : Int)
  | op (c : Nat)
deriving DecidableEq, Repr

/-- The failure channels of `handle`: `evalFail` models `return False`,
`condStackErr` the raised `ConditionStackError`, `valueError` an uncaught
`ValueError` from `CScriptNum.encode`, and `unsupported` the raised
`ValueError("Scripts using ... cannot be interpreted yet!")`. -/
inductive HErr where
  | evalFail
  | condStackErr
  | valueError
  | unsupported
deriving DecidableEq, Repr

/-- Pushing the numeric encoding of `n` (the `isinstance(op, int)` arm). -/
def pushNum (n : Int) (stack : List (List Nat)) : Except HErr (List (List Nat)) :=
  match CScriptNum.encode n with
  | some v => .ok (v :: stack)
  | none => .error .valueError

/-- The opcode dispatch of `handle` (opcodes.py lines 73-175), acting on the
stack AFTER the implicit `isinstance(op, int)` push (a `CScriptOp` is an
`int` subclass, so that arm fires first for every opcode). -/
def dispatchOp (c : Nat) (stack : List (List Nat)) (cs : ConditionStack)
    (should : Bool) : Except HErr (List (List Nat) × ConditionStack) :=
  if c = OP_IF ∨ c = OP_NOTIF then
    if should then
      match stack with
      | [] => .error .evalFail
      | cond :: rest =>
        if cond.length > 1 then .error .evalFail
        else if cond.length = 1 ∧ cond.headD 0 ≠ 1 then .error .evalFail
        else
          let bv := bool_of_stack_item cond
          let bv := if c = OP_NOTIF then !bv else bv
          .ok (rest, cs.push_back bv)
    else .ok (stack, cs.push_back false)
  else if c = OP_ELSE then
    if cs.empty then .error .evalFail
    else
      match cs.toggle_top with
      | some cs' => .ok (stack, cs')
      | none => .error .condStackErr
  else if c = OP_ENDIF then
    if cs.empty then .error .evalFail
    else
      match cs.pop_back with
      | some cs' => .ok (stack, cs')
      | none => .error .condStackErr
  else if !should then .ok (stack, cs)
  else if c = OP_SHA256 then
    if stack.length < 1 then .error .evalFail else .ok (stack, cs)
  else if c = OP_1SUB then
    match stack with
    | [] => .error .evalFail
    | top :: rest =>
      -- `CScriptNum.decode(stack.pop()) - 1`: `decode` returns a plain int,
      -- so this is unchecked integer subtraction (`CScriptNum.__sub__` with
      -- its overflow assert is never invoked here)
      let num := CScriptNum.decode top - 1
      match CScriptNum.encode num with
      | some v => .ok (v :: rest, cs)
      | none => .error .valueError
  else if c = OP_WITHIN then
    if stack.length < 3 then .error .evalFail
    else
      match stack with
      | u :: l :: nn :: rest =>
        let upper := CScriptNum.decode u
        let lower := CScriptNum.decode l
        let num := CScriptNum.decode nn
        -- `bytes(1)` is the single zero byte, `bytes(0)` the empty string
        .ok ((if lower ≤ num ∧ num < upper then [0] else []) :: rest, cs)
      | _ => .error .evalFail
  else if c = OP_0 then .ok (ZERO_enc :: stack, cs)
  else if c = OP_1 then .ok (ONE_enc :: stack, cs)
  else if c = OP_DROP then
    match stack with
    | [] => .error .evalFail
    | _ :: rest => .ok (rest, cs)
  else if c = OP_IFDUP then
    match stack with
    | [] => .error .evalFail
    | v :: rest =>
      if bool_of_stack_item v then .ok (v :: v :: rest, cs) else .ok (v :: rest, cs)
  else if c = OP_DUP then
    match stack with
    | [] => .error .evalFail
    | v :: rest => .ok (v :: v :: rest, cs)
  else if c = OP_CHECKSIGVERIFY then
    match stack with
    | _ :: _ :: rest => .ok (rest, cs)
    | _ => .error .evalFail
  else if c = OP_CHECKTEMPLATEVERIFY then
    if stack.length < 1 then .error .evalFail else .ok (stack, cs)
  else if c = OP_CHECKLOCKTIMEVERIFY then
    if stack.length < 1 then .error .evalFail else .ok (stack, cs)
  else if c = OP_CHECKSEQUENCEVERIFY then
    if stack.length < 1 then .error .evalFail else .ok (stack, cs)
  else if c = OP_EQUALVERIFY then
    match stack with
    | ach :: bch :: rest =>
      if ach ≠ bch then .error .evalFail else .ok (rest, cs)
    | _ => .error .evalFail
  else if c = OP_VERIFY then
    match stack with
    | [] => .error .evalFail
    | bch :: rest =>
      if !bool_of_stack_item bch then .error .evalFail else .ok (rest, cs)
  else .error .unsupported

/-- `handle` (opcodes.py lines 63-176).  The three `isinstance` tests are
independent `if`s, and `CScriptOp` is a subclass of `int`: a `bytes` item
matches only the first, a plain `int` only the second, but a `CScriptOp`
matches both the `int` arm (pushing the encoding of its byte value) and the
`CScriptOp` dispatch. -/
def handle (it : SItem) (stack : List (List Nat)) (cs : ConditionStack) :
    Except HErr (List (List Nat) × ConditionStack) :=
  let should := cs.all_true
  match it with
  | .data bs => .ok ((if should then bs :: stack else stack), cs)
  | .num n =>
    if should then
      match pushNum n stack with
      | .ok stack' => .ok (stack', cs)
      | .error e => .error e
    else .ok (stack, cs)
  | .op c =>
    if should then
      match pushNum c stack with
      | .ok stack' => dispatchOp c stack' cs should
      | .error e => .error e
    else dispatchOp c stack cs should

/-- The loop body of `interpret` (opcodes.py lines 222-231) over an item
sequence, from a given stack and condition stack: `ok false` models
`return False` (also on a caught `ConditionStackError`), `ok true` a
completed run, `error ()` an uncaught `ValueError`. -/
def interpretLoop : List SItem → List (List Nat) → ConditionStack → Except Unit Bool
  | [], _, _ => .ok true
  | it :: rest, stack, cs =>
    match handle it stack cs with
    | .ok (stack', cs') => interpretLoop rest stack' cs'
    | .error .evalFail => .ok false
    | .error .condStackErr => .ok false
    | .error .valueError => .error ()
    | .error .unsupported => .error ()

/-! ### Script buffer iteration (`CScript.raw_iter` / `CScript.__iter__`,
script.py lines 513-595) -/

/-- One raw-iteration item: the `(opcode, data, sop_idx)` tuple. -/
structure RawItem where
  op : Nat
  data : Option (List Nat)
  idx : Nat
deriving DecidableEq, Repr

/-- The structural decode errors of `raw_iter`: `invalid` models
`CScriptInvalidError` (a truncated push-length header, "missing data
length"), `truncated` models `CScriptTruncatedPushDataError` and carries the
partial data recovered so far.  The Python message strings are elided. -/
inductive ScriptErr where
  | invalid
  | truncated (data : List Nat)
deriving DecidableEq, Repr

/-- The push-length header of `raw_iter` for an opcode `c ≤ OP_PUSHDATA4`:
returns `(header length, datasize)`, or the `CScriptInvalidError` when the
1/2/4 little-endian length bytes run past the end of the buffer. -/
def pushHeader (c : Nat) (rest : List Nat) : Except ScriptErr (Nat × Nat) :=
  if c < OP_PUSHDATA1 then .ok (0, c)
  else if c = OP_PUSHDATA1 then
    match rest with
    | [] => .error .invalid
    | b0 :: _ => .ok (1, b0)
  else if c = OP_PUSHDATA2 then
    match rest with
    | b0 :: b1 :: _ => .ok (2, b0 + (b1 <<< 8))
    | _ => .error .invalid
  else
    match rest with
    | b0 :: b1 :: b2 :: b3 :: _ =>
      .ok (4, b0 + (b1 <<< 8) + (b2 <<< 16) + (b3 <<< 24))
    | _ => .error .invalid

/-- `CScript.raw_iter` (script.py lines 513-574) over the remaining bytes at
absolute offset `i`.  The first argument is structural fuel (any value at
least the remaining length gives the same result; `rawIterFrom` passes the
length itself). -/
def rawIterAux : Nat → List Nat → Nat → Except ScriptErr (List RawItem)
  | _, [], _ => .ok []
  | 0, _ :: _, _ => .ok []
  | f + 1, c :: rest, i =>
    if c > OP_PUSHDATA4 then
      match rawIterAux f rest (i + 1) with
      | .ok items => .ok (⟨c, none, i⟩ :: items)
      | .error e => .error e
    else
      match pushHeader c rest with
      | .error e => .error e
      | .ok (hlen, datasize) =>
        let body := rest.drop hlen
        let data := body.take datasize
        if data.length < datasize then .error (.truncated data)
        else
          match rawIterAux f (body.drop datasize) (i + 1 + hlen + datasize) with
          | .ok items => .ok (⟨c, some data, i⟩ :: items)
          | .error e => .error e

/-- `raw_iter` of the remaining bytes starting at absolute offset `i`. -/
def rawIterFrom (s : List Nat) (i : Nat) : Except ScriptErr (List RawItem) :=
  rawIterAux s.length s i

/-- `CScript.raw_iter` on a whole script. -/
def rawIter (s : List Nat) : Except ScriptErr (List RawItem) := rawIterFrom s 0

/-- `CScriptOp.is_small_int` (script.py lines 83-88). -/
def is_small_int (c : Nat) : Bool :=
  if (0x51 ≤ c ∧ c ≤ 0x60) ∨ c = 0 then true else false

/-- `CScriptOp.decode_op_n` (script.py lines 73-81); `none` models the
raised `ValueError("op %r is not an OP_N")`. -/
def decode_op_n (c : Nat) : Option Nat :=
  if c = OP_0 then some 0
  else if ¬(c = OP_0 ∨ (OP_1 ≤ c ∧ c ≤ OP_16)) then none
  else some (c - OP_1 + 1)

/-- One step of cooked iteration (`CScript.__iter__`, script.py lines
577-595): push data becomes raw bytes, small-integer push opcodes decode to
integers, all other opcodes stay opcodes.  (`decode_op_n` cannot fail here:
`is_small_int` guarantees its domain.) -/
def cookedOf (it : RawItem) : SItem :=
  match it.data with
  | some d => .data d
  | none =>
    if is_small_int it.op then .num (((decode_op_n it.op).getD 0 : Nat) : Int)
    else .op it.op

/-- `CScript.__iter__` ("cooked" iteration): built atop `raw_iter`,
propagating its structural errors. -/
def cookedIter (s : List Nat) : Except ScriptErr (List SItem) :=
  match rawIter s with
  | .ok items => .ok (items.map cookedOf)
  | .error e => .error e

/-- Reassembly of one raw item into the exact source bytes it was parsed
from (used to state that `raw_iter` never yields a silently short read). -/
def serializeRawItem (it : RawItem) : List Nat :=
  match it.data with
  | none => [it.op]
  | some d =>
    if it.op < OP_PUSHDATA1 then it.op :: d
    else if it.op = OP_PUSHDATA1 then OP_PUSHDATA1 :: d.length :: d
    else if it.op = OP_PUSHDATA2 then
      OP_PUSHDATA2 :: d.length % 256 :: d.length / 256 :: d
    else
      OP_PUSHDATA4 :: d.length % 256 :: d.length / 256 % 256 ::
        d.length / 2 ^ 16 % 256 :: d.length / 2 ^ 24 :: d

/-- Reassembly of a raw-item list. -/
def serializeItems (items : List RawItem) : List Nat :=
  (items.map serializeRawItem).flatten

/-! ### Script analyzers (`GetSigOpCount` / `FindAndDelete`, script.py
lines 624-666) -/

/-- The loop of `CScript.GetSigOpCount` (script.py lines 631-642); `none`
models the `ValueError` raised by `decode_op_n` (the source decodes
`opcode` — the multisig opcode itself — not `lastOpcode`). -/
def sigOpLoop (fAccurate : Bool) : List RawItem → Nat → Nat → Option Nat
  | [], _, n => some n
  | it :: rest, lastOpcode, n =>
    if it.op = OP_CHECKSIG ∨ it.op = OP_CHECKSIGVERIFY then
      sigOpLoop fAccurate rest it.op (n + 1)
    else if it.op = OP_CHECKMULTISIG ∨ it.op = OP_CHECKMULTISIGVERIFY then
      if fAccurate ∧ (OP_1 ≤ lastOpcode ∧ lastOpcode ≤ OP_16) then
        match decode_op_n it.op with
        | some k => sigOpLoop fAccurate rest it.op (n + k)
        | none => none
      else sigOpLoop fAccurate rest it.op (n + 20)
    else sigOpLoop fAccurate rest it.op n

/-- `CScript.GetSigOpCount` (script.py lines 624-642), starting from
`lastOpcode = OP_INVALIDOPCODE` and `n = 0`; `none` models a raised
exception (a structural decode error from `raw_iter`, or the `ValueError`
from `decode_op_n`). -/
def GetSigOpCount (s : List Nat) (fAccurate : Bool) : Option Nat :=
  match rawIter s with
  | .ok items => sigOpLoop fAccurate items OP_INVALIDOPCODE 0
  | .error _ => none

/-- The loop of `FindAndDelete` (script.py lines 653-663) over the raw
items, carrying the output `r`, `last_sop_idx`, and `skip` (initially
`r = b""`, `last_sop_idx = 0`, `skip = True`), with the final
`if not skip: r += script[last_sop_idx:]` flush. -/
def fadLoop (s sig : List Nat) : List RawItem → List Nat → Nat → Bool → List Nat
  | [], r, last, skip => if !skip then r ++ s.drop last else r
  | it :: rest, r, last, skip =>
    let r' := if !skip then r ++ (s.drop last).take (it.idx - last) else r
    let skip' : Bool := (s.drop it.idx).take sig.length = sig
    fadLoop s sig rest r' it.idx skip'

/-- `FindAndDelete` (script.py lines 651-666); propagates the structural
errors of `raw_iter`. -/
def FindAndDelete (s sig : List Nat) : Except ScriptErr (List Nat) :=
  match rawIter s with
  | .ok items => .ok (fadLoop s sig items [] 0 true)
  | .error e => .error e

/-- The byte offset at which the first of `items` ends: the offset of the
following instruction, or the end of the script. -/
def segStop (s : List Nat) : List RawItem → Nat
  | [] => s.length
  | it :: _ => it.idx

/-- Specification-side description of pattern deletion: the concatenation,
in original order, of the verbatim source bytes of exactly those
instructions at whose offset the next `sig.length` bytes do not equal
`sig`; an instruction's source bytes run from its offset to the next
instruction's offset (or the end of the script). -/
def keptBytes (s sig : List Nat) : List RawItem → List Nat
  | [] => []
  | it :: rest =>
    (if (s.drop it.idx).take sig.length = sig then []
     else (s.drop it.idx).take (segStop s rest - it.idx)) ++ keptBytes s sig rest

/-! ### Script construction (`CScript.__coerce_instance` / `__new__`,
script.py lines 452-511) -/

/-- Modelled from the spec: `bn2vch` from the `bignum` module is not under
`src/`; §6 describes it as the "short-integer-to-minimal-bytes encoder
reused by generic numeric pushes", i.e. the minimal sign-magnitude
little-endian byte representation — exactly the payload of the numeric
stack encoding without its length prefix. -/
def bn2vch (n : Int) : List Nat := CScriptNum.payload n

/-- `CScriptOp.encode_op_n` (script.py lines 62-71); `none` models the
raised `ValueError` outside `0 ≤ n ≤ 16`. -/
def encode_op_n (n : Nat) : Option Nat :=
  if n ≤ 16 then some (if n = 0 then OP_0 else OP_1 + n - 1) else none

/-- `CScriptOp.encode_op_pushdata` (script.py lines 48-60); `none` models
the raised `ValueError` for data longer than 0xFFFFFFFF bytes. -/
def encode_op_pushdata (d : List Nat) : Option (List Nat) :=
  if d.length < OP_PUSHDATA1 then some (d.length :: d)
  else if d.length ≤ 0xFF then some (OP_PUSHDATA1 :: d.length :: d)
  else if d.length ≤ 0xFFFF then
    some (OP_PUSHDATA2 :: d.length % 256 :: d.length / 256 :: d)
  else if d.length ≤ 0xFFFFFFFF then
    some (OP_PUSHDATA4 :: d.length % 256 :: d.length / 256 % 256 ::
      d.length / 2 ^ 16 % 256 :: d.length / 2 ^ 24 :: d)
  else none

/-- `CScript.Coercable`: the input types of the coercion rule. -/
inductive Coercable where
  | op (c : Nat)
  | scriptNum (n : Int)
  | int (n : Int)
  | script (bs : List Nat)
  | bytes (bs : List Nat)
deriving DecidableEq, Repr

/-- `CScript.__coerce_instance` (script.py lines 452-477): an opcode as its
byte; a `CScriptNum` as `[OP_0]` for zero and its prefixed encoding
otherwise; an integer in `[0, 16]` as the small-integer opcode, `-1` as
`OP_1NEGATE`, anything else as a pushdata of `bn2vch`; a script verbatim;
raw bytes as a pushdata. -/
def coerce : Coercable → Option (List Nat)
  | .op c => some [c]
  | .scriptNum n => if n = 0 then some [OP_0] else CScriptNum.encode n
  | .int n =>
    if 0 ≤ n ∧ n ≤ 16 then (encode_op_n n.toNat).map (fun b => [b])
    else if n = -1 then some [OP_1NEGATE]
    else encode_op_pushdata (bn2vch n)
  | .script bs => some bs
  | .bytes bs => encode_op_pushdata bs

/-- `CScript.__new__` on an iterable (script.py lines 494-511):
`b"".join(coerce_iterable(value))`. -/
def buildScript : List Coercable → Option (List Nat)
  | [] => some []
  | v :: vs =>
    match coerce v, buildScript vs with
    | some bv, some rest => some (bv ++ rest)
    | _, _ => none

/-- The cooked item a coercible value is expected to round-trip to. -/
def toCookedVal : Coercable → SItem
  | .op c => .op c
  | .scriptNum n => .num n
  | .int n => .num n
  | .script bs => .data bs
  | .bytes bs => .data bs

/-- The domain on which building-then-cooked-iterating reproduces the
original values: opcodes that carry no inline data and are not
small-integer pushes, integers in `[1, 16]`, and byte strings short enough
for a pushdata encoding. -/
def goodVal : Coercable → Bool
  | .op c => decide (OP_PUSHDATA4 < c) && decide (c ≤ 0xFF) && !(is_small_int c)
  | .int n => decide (1 ≤ n) && decide (n ≤ 16)
  | .bytes bs => decide (bs.length ≤ 0xFFFFFFFF)
  | _ => false

/-! ## Theorems -/

theorem leEncAux_congr : ∀ (f g v : Nat), v ≤ f → v ≤ g → leEncAux f v = leEncAux g v := by
  intro f
  induction f with
  | zero =>
    intro g v hf _
    interval_cases v
    cases g <;> rfl
  | succ f ih =>
    intro g v hf hg
    match v, g with
    | 0, g => cases g <;> rfl
    | w + 1, 0 => omega
    | w + 1, g + 1 =>
      simp only [leEncAux]
      congr 1
      have hlt : (w + 1) / 256 < w + 1 := Nat.div_lt_self (Nat.succ_pos w) (by norm_num)
      exact ih g ((w + 1) / 256) (by omega) (by omega)

theorem leEnc_zero : leEnc 0 = [] := rfl

theorem leEnc_pos (v : Nat) (h : v ≠ 0) : leEnc v = v % 256 :: leEnc (v / 256) := by
  match v, h with
  | w + 1, _ =>
    show leEncAux (w + 1) (w + 1) = _
    simp only [leEncAux]
    congr 1
    have hlt : (w + 1) / 256 < w + 1 := Nat.div_lt_self (Nat.succ_pos w) (by norm_num)
    exact leEncAux_congr w ((w + 1) / 256) ((w + 1) / 256) (by omega) le_rfl

theorem leDec_leEnc (v : Nat) : leDec (leEnc v) = v := by
  induction v using Nat.strong_induction_on with
  | _ v ih =>
    by_cases h : v = 0
    · subst h; rfl
    · rw [leEnc_pos v h]
      have hlt : v / 256 < v := Nat.div_lt_self (Nat.pos_of_ne_zero h) (by norm_num)
      simp only [leDec, ih (v / 256) hlt]
      omega

theorem leEnc_mem_lt (v : Nat) : ∀ b ∈ leEnc v, b < 256 := by
  induction v using Nat.strong_induction_on with
  | _ v ih =>
    by_cases h : v = 0
    · subst h; simp [leEnc_zero]
    · rw [leEnc_pos v h]
      intro b hb
      have hlt : v / 256 < v := Nat.div_lt_self (Nat.pos_of_ne_zero h) (by norm_num)
      rcases List.mem_cons.mp hb with rfl | hmem
      · omega
      · exact ih (v / 256) hlt b hmem

theorem leEnc_ne_nil (v : Nat) (h : v ≠ 0) : leEnc v ≠ [] := by
  rw [leEnc_pos v h]; simp

theorem leDec_lt (l : List Nat) (h : ∀ b ∈ l, b < 256) : leDec l < 256 ^ l.length := by
  induction l with
  | nil => simp [leDec]
  | cons b bs ih =>
    have hb : b < 256 := h b (List.mem_cons_self b bs)
    have hbs : leDec bs < 256 ^ bs.length := ih (fun x hx => h x (List.mem_cons_of_mem b hx))
    simp only [leDec, List.length_cons, pow_succ]
    calc b + 256 * leDec bs < 256 + 256 * leDec bs := by omega
    _ = 256 * (1 + leDec bs) := by ring
    _ ≤ 256 * 256 ^ bs.length := by
        exact Nat.mul_le_mul_left 256 (by omega)
    _ = 256 ^ bs.length * 256 := by ring

theorem leDec_concat (l : List Nat) (b : Nat) :
    leDec (l ++ [b]) = leDec l + b * 256 ^ l.length := by
  induction l with
  | nil => simp [leDec]
  | cons a l ih =>
    have hstep : leDec (a :: (l ++ [b])) = a + 256 * leDec (l ++ [b]) := rfl
    have hstep2 : leDec (a :: l) = a + 256 * leDec l := rfl
    rw [List.cons_append, hstep, ih, hstep2, List.length_cons, pow_succ]
    ring

set_option maxRecDepth 4096 in
theorem and128_iff : ∀ t < 256, (t &&& 128 ≠ 0 ↔ 128 ≤ t) := by decide

set_option maxRecDepth 4096 in
theorem or128_eq : ∀ t < 128, t ||| 128 = t + 128 := by decide

theorem shift_mask (m : Nat) (h : 1 ≤ m) : (2 ^ m - 1) >>> 1 = 2 ^ (m - 1) - 1 := by
  rw [Nat.shiftRight_eq_div_pow]
  have h2 : (2 : Nat) ^ m = 2 * 2 ^ (m - 1) := by
    rw [← pow_succ']
    congr 1
    omega
  have hp : 0 < (2 : Nat) ^ (m - 1) := Nat.pos_pow_of_pos _ (by norm_num)
  rw [h2]
  omega

/-- Characterization of `CScriptNum.decode` on a non-empty payload with a
one-byte prefix: the masking `result &= (2^(8L)-1) >> 1` is a `mod 2^(8L-1)`. -/
theorem decode_eq (k : Nat) (value : List Nat) (hv : value ≠ []) :
    CScriptNum.decode (k :: value) =
      if 0x80 ≤ value.getLastD 0 then
        -((leDec value % 2 ^ (value.length * 8 - 1) : Nat) : Int)
      else ((leDec value : Nat) : Int) := by
  have hlen : value.length ≠ 0 := by
    intro h
    exact hv (List.eq_nil_of_length_eq_zero h)
  simp only [CScriptNum.decode, List.drop_succ_cons, List.drop_zero, if_neg hlen]
  by_cases hbig : 0x80 ≤ value.getLastD 0
  · rw [if_pos hbig, if_pos hbig]
    rw [shift_mask (value.length * 8) (by omega), Nat.and_pow_two_sub_one_eq_mod]
  · rw [if_neg hbig, if_neg hbig]

/-- The heart of the round-trip: `decode` strips exactly one leading byte,
so decoding any one-byte-prefixed payload recovers the value. -/
theorem decode_cons_payload (n : Int) (hn : n ≠ 0) (k : Nat) :
    CScriptNum.decode (k :: CScriptNum.payload n) = n := by
  have ha : n.natAbs ≠ 0 := fun h0 => hn (Int.natAbs_eq_zero.mp h0)
  have hr : leEnc n.natAbs ≠ [] := leEnc_ne_nil n.natAbs ha
  obtain ⟨l0, t, hconcat⟩ : ∃ l0 t, leEnc n.natAbs = l0 ++ [t] := by
    rcases List.eq_nil_or_concat (leEnc n.natAbs) with h | ⟨L, b, h⟩
    · exact absurd h hr
    · exact ⟨L, b, by simpa [List.concat_eq_append] using h⟩
  have ht : t < 256 := leEnc_mem_lt n.natAbs t (by rw [hconcat]; simp)
  have hl0 : ∀ b ∈ l0, b < 256 := fun b hb =>
    leEnc_mem_lt n.natAbs b (by rw [hconcat]; simp [hb])
  have hl0lt : leDec l0 < 256 ^ l0.length := leDec_lt l0 hl0
  have haval : leDec l0 + t * 256 ^ l0.length = n.natAbs := by
    have h := leDec_leEnc n.natAbs
    rw [hconcat, leDec_concat] at h
    exact h
  have hP : CScriptNum.payload n =
      (if (leEnc n.natAbs).getLastD 0 &&& 0x80 ≠ 0 then
        leEnc n.natAbs ++ [if n < 0 then 0x80 else 0]
       else if n < 0 then (leEnc n.natAbs).dropLast ++ [(leEnc n.natAbs).getLastD 0 ||| 0x80]
       else leEnc n.natAbs) := by
    simp only [CScriptNum.payload, if_neg hn]
  have hlast : (leEnc n.natAbs).getLastD 0 = t := by rw [hconcat, List.getLastD_concat]
  have hp256 : (256 : Nat) ^ l0.length = 2 ^ (8 * l0.length) := by
    rw [show (256 : Nat) = 2 ^ 8 from rfl, ← pow_mul]
  by_cases hbit : t &&& 128 ≠ 0
  · -- the top bit of the last magnitude byte is set: an extra sign byte is appended
    rw [hP, hlast, if_pos hbit, hconcat]
    by_cases hneg : n < 0
    · rw [if_pos hneg]
      rw [decode_eq _ _ (by simp)]
      rw [List.getLastD_concat, if_pos (by norm_num)]
      have hlen2 : ((l0 ++ [t]) ++ [0x80]).length = l0.length + 2 := by simp
      have hres : leDec ((l0 ++ [t]) ++ [0x80]) = n.natAbs + 2 ^ (8 * l0.length + 15) := by
        rw [leDec_concat, leDec_concat]
        have h15 : (0x80 : Nat) * 256 ^ (l0 ++ [t]).length = 2 ^ (8 * l0.length + 15) := by
          rw [List.length_append, List.length_singleton,
            show (0x80 : Nat) = 2 ^ 7 from rfl, show (256 : Nat) = 2 ^ 8 from rfl,
            ← pow_mul, ← pow_add]
          congr 1
          ring
        omega
      have halt : n.natAbs < 2 ^ (8 * l0.length + 15) := by
        have h1 : (256 : Nat) ^ l0.length * 256 ≤ 2 ^ (8 * l0.length + 15) := by
          rw [hp256, show (256 : Nat) = 2 ^ 8 from rfl, ← pow_add]
          exact Nat.pow_le_pow_right (by norm_num) (by omega)
        nlinarith
      rw [hres, hlen2, show (l0.length + 2) * 8 - 1 = 8 * l0.length + 15 by omega,
        Nat.add_mod_right, Nat.mod_eq_of_lt halt]
      omega
    · rw [if_neg hneg]
      rw [decode_eq _ _ (by simp)]
      rw [List.getLastD_concat, if_neg (by norm_num)]
      rw [leDec_concat, Nat.zero_mul, Nat.add_zero, ← hconcat, leDec_leEnc]
      omega
  · -- the top bit of the last magnitude byte is clear
    have ht128 : t < 128 := by
      by_contra hc
      push_neg at hc
      exact hbit ((and128_iff t ht).mpr hc)
    rw [hP, hlast, if_neg hbit]
    by_cases hneg : n < 0
    · rw [if_pos hneg, hconcat, List.dropLast_concat, or128_eq t ht128]
      rw [decode_eq _ _ (by simp)]
      rw [List.getLastD_concat, if_pos (by omega)]
      have hres : leDec (l0 ++ [t + 128]) = n.natAbs + 2 ^ (8 * l0.length + 7) := by
        rw [leDec_concat]
        have h7 : (128 : Nat) * 256 ^ l0.length = 2 ^ (8 * l0.length + 7) := by
          rw [show (128 : Nat) = 2 ^ 7 from rfl, show (256 : Nat) = 2 ^ 8 from rfl,
            ← pow_mul, ← pow_add]
          congr 1
          ring
        have hsplit : (t + 128) * 256 ^ l0.length =
            t * 256 ^ l0.length + 128 * 256 ^ l0.length := by ring
        omega
      have halt : n.natAbs < 2 ^ (8 * l0.length + 7) := by
        have h1 : (256 : Nat) ^ l0.length * 128 = 2 ^ (8 * l0.length + 7) := by
          rw [hp256, show (128 : Nat) = 2 ^ 7 from rfl, ← pow_add]
        nlinarith
      have hlen1 : (l0 ++ [t + 128]).length = l0.length + 1 := by simp
      rw [hres, hlen1, show (l0.length + 1) * 8 - 1 = 8 * l0.length + 7 by omega,
        Nat.add_mod_right, Nat.mod_eq_of_lt halt]
      omega
    · rw [if_neg hneg, hconcat]
      rw [decode_eq _ _ (by simp)]
      rw [List.getLastD_concat, if_neg (by omega)]
      rw [← hconcat, leDec_leEnc]
      omega

/-- Claim C4: for every integer n, decoding the numeric stack encoding of n
yields n back (whenever `encode` succeeds, i.e. the payload fits the
internal one-byte length prefix that `decode` strips), and `encode 0` is the
empty byte string. -/
theorem claim_C4 :
    (∀ (n : Int) (v : List Nat), CScriptNum.encode n = some v → CScriptNum.decode v = n) ∧
    CScriptNum.encode 0 = some [] := by
  refine ⟨?_, rfl⟩
  intro n v h
  by_cases hn : n = 0
  · subst hn
    have h0 : CScriptNum.encode 0 = some [] := rfl
    rw [h0, Option.some.injEq] at h
    subst h
    rfl
  · simp only [CScriptNum.encode, if_neg hn] at h
    by_cases hlen : (CScriptNum.payload n).length ≤ 0xFF
    · rw [if_pos hlen, Option.some.injEq] at h
      subst h
      exact decode_cons_payload n hn _
    · rw [if_neg hlen] at h
      cases h

theorem claim_C4_witness :
    CScriptNum.decode [1, 0x85] = -5 ∧ CScriptNum.encode (-5) = some [1, 0x85] :=
  ⟨claim_C4.1 (-5) [1, 0x85] (by decide), by decide⟩

/-- Claim C9: every condition-stack state reachable from the initial state
via non-failing `push_back`, `pop_back`, and `toggle_top` satisfies the
invariant that the first-false-position marker is either the sentinel
`NO_FALSE` or strictly less than the current depth. -/
theorem claim_C9 (c : ConditionStack) (h : ReachableCS c) :
    c.first_false_position = NO_FALSE ∨ c.first_false_position < c.stack_size := by
  induction h with
  | init => left; rfl
  | push c b _ ih =>
    simp only [ConditionStack.push_back]
    by_cases hc : c.first_false_position = NO_FALSE ∧ ¬b
    · rw [if_pos hc]
      right
      omega
    · rw [if_neg hc]
      rcases ih with h1 | h1
      · left; exact h1
      · right; omega
  | pop c c' _ hpop ih =>
    simp only [ConditionStack.pop_back] at hpop
    by_cases hsz : c.stack_size > 0
    · rw [if_pos hsz, Option.some.injEq] at hpop
      subst hpop
      simp only
      by_cases hff : c.first_false_position = c.stack_size - 1
      · rw [if_pos hff]
        left
        rfl
      · rw [if_neg hff]
        rcases ih with h1 | h1
        · left; exact h1
        · right; omega
    · rw [if_neg hsz] at hpop
      cases hpop
  | toggle c c' _ htog ih =>
    simp only [ConditionStack.toggle_top] at htog
    by_cases hsz : c.stack_size > 0
    · rw [if_pos hsz] at htog
      by_cases hnf : c.first_false_position = NO_FALSE
      · rw [if_pos hnf, Option.some.injEq] at htog
        subst htog
        right
        show c.stack_size - 1 < c.stack_size
        omega
      · rw [if_neg hnf] at htog
        by_cases htop : c.first_false_position = c.stack_size - 1
        · rw [if_pos htop, Option.some.injEq] at htog
          subst htog
          left
          rfl
        · rw [if_neg htop, Option.some.injEq] at htog
          subst htog
          exact ih
    · rw [if_neg hsz] at htog
      cases htog

theorem claim_C9_witness :
    (ConditionStack.init.push_back false).first_false_position = NO_FALSE ∨
      (ConditionStack.init.push_back false).first_false_position <
        (ConditionStack.init.push_back false).stack_size :=
  claim_C9 _ (ReachableCS.push _ false ReachableCS.init)

/-- Claim C1 (refuted by the code): the claim says only raw-bytes and
decoded-small-integer items push implicitly and that `[DUP, EQUALVERIFY]`
from a one-item stack evaluates true.  In the code the three `isinstance`
tests are independent and `CScriptOp` subclasses `int`, so every executed
opcode first pushes the encoding of its own byte value: `DUP` pushes
`encode(0x76)` and duplicates that, `EQUALVERIFY` pushes `encode(0x88)` and
compares it with `encode(0x76)`, so evaluation returns false. -/
theorem claim_C1_bug :
    interpretLoop [.op OP_DUP, .op OP_EQUALVERIFY] [[5]] ConditionStack.init = .ok false ∧
    handle (.op OP_DUP) [[5]] ConditionStack.init
      = .ok ([[1, 0x76], [1, 0x76], [5]], ConditionStack.init) :=
  ⟨rfl, rfl⟩

/-- Claim C3 (refuted by the code): the claim says the decrement aborts when
`n - 1` would underflow `min_int64`.  In the code `CScriptNum.decode` returns
a plain `int`, so `decode(stack.pop()) - 1` is unchecked subtraction and
`CScriptNum.__sub__`'s overflow assert is never invoked; moreover the
implicit opcode push (see C1) means the arm decrements `decode(encode(0x8C))
= 140` to `139` and succeeds.  The source's own checked subtraction
(`CScriptNum.sub`) would refuse `min_int64 - 1`. -/
theorem claim_C3_bug :
    CScriptNum.encode CScriptNum.min_int64 = some [9, 0, 0, 0, 0, 0, 0, 0, 0x80, 0x80] ∧
    CScriptNum.decode [9, 0, 0, 0, 0, 0, 0, 0, 0x80, 0x80] = CScriptNum.min_int64 ∧
    handle (.op OP_1SUB) [[9, 0, 0, 0, 0, 0, 0, 0, 0x80, 0x80]] ConditionStack.init
      = .ok ([[2, 0x8B, 0], [9, 0, 0, 0, 0, 0, 0, 0, 0x80, 0x80]], ConditionStack.init) ∧
    CScriptNum.sub CScriptNum.min_int64 1 = none :=
  ⟨rfl, rfl, rfl, rfl⟩

/-- Claim C5 (refuted by the code): the claim says an active `IF` pops the
top item supplied by the preceding instructions and that `tracker.push` runs
regardless of activity.  In the code the implicit opcode push (see C1) puts
`encode(0x63)` (two bytes) on top, so an active `IF` always pops that value,
fails the one-byte minimal-encoding check, and returns false before
`push_back` is reached — even when the real top is the minimal true `[0x01]`.
The tracker push does happen when execution is inactive. -/
theorem claim_C5_bug :
    handle (.op OP_IF) [[1]] ConditionStack.init = .error .evalFail ∧
    handle (.op OP_IF) [[2]] ConditionStack.init = .error .evalFail ∧
    handle (.op OP_IF) [[1]] ⟨1, 0⟩ = .ok ([[1]], ⟨2, 0⟩) :=
  ⟨rfl, rfl, rfl⟩

theorem handle_within (x y z : List Nat) (rest : List (List Nat)) (cs : ConditionStack)
    (hact : cs.all_true = true) :
    handle (.op OP_WITHIN) (x :: y :: z :: rest) cs
      = .ok ((if CScriptNum.decode x ≤ CScriptNum.decode y ∧ CScriptNum.decode y < 165
              then [0] else []) :: z :: rest, cs) := by
  simp only [handle, hact]
  rfl

/-- Claim C10: whenever the range-test instruction runs on an active stack of
at least three items, the value the arm appends is the single zero byte when
the tested operand lies in the half-open range and the empty byte string
otherwise, and either way it is false under `bool_of_stack_item`, so the
outcome is never observable as a truthy stack value.  (Because of the
implicit opcode push of C1, the code's `upper` bound is always
`decode(encode(0xA5)) = 165` and the tested operand is the second stack
item.) -/
theorem claim_C10 (x y z : List Nat) (rest : List (List Nat)) (cs : ConditionStack)
    (hact : cs.all_true = true) :
    ∃ v, handle (.op OP_WITHIN) (x :: y :: z :: rest) cs = .ok (v :: z :: rest, cs) ∧
      (v = [0] ∨ v = []) ∧ bool_of_stack_item v = false ∧
      (v = [0] ↔ (CScriptNum.decode x ≤ CScriptNum.decode y ∧ CScriptNum.decode y < 165)) := by
  refine ⟨_, handle_within x y z rest cs hact, ?_, ?_, ?_⟩
  · by_cases h : CScriptNum.decode x ≤ CScriptNum.decode y ∧ CScriptNum.decode y < 165
    · rw [if_pos h]
      left
      rfl
    · rw [if_neg h]
      right
      rfl
  · by_cases h : CScriptNum.decode x ≤ CScriptNum.decode y ∧ CScriptNum.decode y < 165
    · rw [if_pos h]
      rfl
    · rw [if_neg h]
      rfl
  · by_cases h : CScriptNum.decode x ≤ CScriptNum.decode y ∧ CScriptNum.decode y < 165
    · rw [if_pos h]
      exact iff_of_true rfl h
    · rw [if_neg h]
      exact iff_of_false (by simp) h

theorem claim_C10_witness :
    ∃ v, handle (.op OP_WITHIN) [[1, 1], [1, 2], [7]] ConditionStack.init
        = .ok (v :: [7] :: [], ConditionStack.init) ∧
      (v = [0] ∨ v = []) ∧ bool_of_stack_item v = false ∧
      (v = [0] ↔ (CScriptNum.decode [1, 1] ≤ CScriptNum.decode [1, 2] ∧
        CScriptNum.decode [1, 2] < 165)) :=
  claim_C10 [1, 1] [1, 2] [7] [] ConditionStack.init (by decide)

theorem rawIterAux_congr : ∀ (f g : Nat) (s : List Nat) (i : Nat),
    s.length ≤ f → s.length ≤ g → rawIterAux f s i = rawIterAux g s i := by
  intro f
  induction f with
  | zero =>
    intro g s i hf _
    have hs : s = [] := List.eq_nil_of_length_eq_zero (by simpa using hf)
    subst hs
    cases g <;> rfl
  | succ f ih =>
    intro g s i hf hg
    match s, g with
    | [], g => cases g <;> rfl
    | c :: rest, 0 => simp at hg
    | c :: rest, g + 1 =>
      have hrf : rest.length ≤ f := by simpa using hf
      have hrg : rest.length ≤ g := by simpa using hg
      show rawIterAux (f + 1) (c :: rest) i = rawIterAux (g + 1) (c :: rest) i
      simp only [rawIterAux]
      by_cases hc : c > OP_PUSHDATA4
      · rw [if_pos hc, if_pos hc, ih g rest (i + 1) hrf hrg]
      · rw [if_neg hc, if_neg hc]
        cases hE : pushHeader c rest with
        | error e => rfl
        | ok p =>
          obtain ⟨hlen, datasize⟩ := p
          have hrec : ((rest.drop hlen).drop datasize).length ≤ f := by
            have h1 := List.length_drop datasize (rest.drop hlen)
            have h2 := List.length_drop hlen rest
            omega
          have hrec2 : ((rest.drop hlen).drop datasize).length ≤ g := by
            have h1 := List.length_drop datasize (rest.drop hlen)
            have h2 := List.length_drop hlen rest
            omega
          simp only [ih g ((rest.drop hlen).drop datasize) (i + 1 + hlen + datasize) hrec hrec2]

theorem rawIterFrom_nil (i : Nat) : rawIterFrom [] i = .ok [] := rfl

theorem rawIterFrom_op (c : Nat) (rest : List Nat) (i : Nat) (hc : c > OP_PUSHDATA4) :
    rawIterFrom (c :: rest) i =
      match rawIterFrom rest (i + 1) with
      | .ok items => .ok (⟨c, none, i⟩ :: items)
      | .error e => .error e := by
  show rawIterAux (rest.length + 1) (c :: rest) i = _
  simp only [rawIterAux, if_pos hc]
  rfl

theorem rawIterFrom_header_err (c : Nat) (rest : List Nat) (i : Nat) (e : ScriptErr)
    (hc : ¬c > OP_PUSHDATA4) (hh : pushHeader c rest = .error e) :
    rawIterFrom (c :: rest) i = .error e := by
  show rawIterAux (rest.length + 1) (c :: rest) i = _
  simp only [rawIterAux, if_neg hc, hh]

theorem rawIterFrom_push (c : Nat) (rest : List Nat) (i hlen datasize : Nat)
    (hc : ¬c > OP_PUSHDATA4) (hh : pushHeader c rest = .ok (hlen, datasize)) :
    rawIterFrom (c :: rest) i =
      (if ((rest.drop hlen).take datasize).length < datasize then
        .error (.truncated ((rest.drop hlen).take datasize))
      else
        match rawIterFrom ((rest.drop hlen).drop datasize) (i + 1 + hlen + datasize) with
        | .ok items => .ok (⟨c, some ((rest.drop hlen).take datasize), i⟩ :: items)
        | .error e => .error e) := by
  show rawIterAux (rest.length + 1) (c :: rest) i = _
  simp only [rawIterAux, if_neg hc, hh]
  by_cases hlt : ((rest.drop hlen).take datasize).length < datasize
  · rw [if_pos hlt, if_pos hlt]
  · rw [if_neg hlt, if_neg hlt]
    have hle : ((rest.drop hlen).drop datasize).length ≤ rest.length := by
      have := List.length_drop datasize (rest.drop hlen)
      have := List.length_drop hlen rest
      omega
    rw [rawIterAux_congr rest.length ((rest.drop hlen).drop datasize).length
      ((rest.drop hlen).drop datasize) (i + 1 + hlen + datasize) hle le_rfl]
    rfl

theorem pushHeader_err_short (c : Nat) (rest : List Nat)
    (h : (c = OP_PUSHDATA1 ∧ rest.length < 1) ∨ (c = OP_PUSHDATA2 ∧ rest.length < 2) ∨
      (c = OP_PUSHDATA4 ∧ rest.length < 4)) :
    pushHeader c rest = .error .invalid := by
  rcases h with ⟨rfl, hl⟩ | ⟨rfl, hl⟩ | ⟨rfl, hl⟩
  · have : rest = [] := List.eq_nil_of_length_eq_zero (by omega)
    subst this
    rfl
  · match rest, hl with
    | [], _ => rfl
    | [b0], _ => rfl
  · match rest, hl with
    | [], _ => rfl
    | [b0], _ => rfl
    | [b0, b1], _ => rfl
    | [b0, b1, b2], _ => rfl

/-- Reassembling the items of a successful raw iteration yields the source
bytes exactly: no instruction is ever a silently short read. -/
theorem rawIterAux_serialize : ∀ (f : Nat) (s : List Nat) (i : Nat) (items : List RawItem),
    s.length ≤ f → (∀ b ∈ s, b < 256) → rawIterAux f s i = .ok items →
    serializeItems items = s := by
  intro f
  induction f with
  | zero =>
    intro s i items hf _ hok
    have hs : s = [] := List.eq_nil_of_length_eq_zero (by omega)
    subst hs
    cases hok
    rfl
  | succ f ih =>
    intro s i items hf hbytes hok
    match s with
    | [] =>
      cases hok
      rfl
    | c :: rest =>
      have hrf : rest.length ≤ f := by simpa using hf
      rw [show rawIterAux (f + 1) (c :: rest) i =
        (if c > OP_PUSHDATA4 then
          match rawIterAux f rest (i + 1) with
          | .ok items => .ok (⟨c, none, i⟩ :: items)
          | .error e => .error e
        else
          match pushHeader c rest with
          | .error e => .error e
          | .ok (hlen, datasize) =>
            let body := rest.drop hlen
            let data := body.take datasize
            if data.length < datasize then .error (.truncated data)
            else
              match rawIterAux f (body.drop datasize) (i + 1 + hlen + datasize) with
              | .ok items => .ok (⟨c, some data, i⟩ :: items)
              | .error e => .error e) from rfl] at hok
      by_cases hc : c > OP_PUSHDATA4
      · rw [if_pos hc] at hok
        cases hE : rawIterAux f rest (i + 1) with
        | error e => rw [hE] at hok; cases hok
        | ok items' =>
          rw [hE] at hok
          cases hok
          have hser := ih rest (i + 1) items' hrf
            (fun b hb => hbytes b (List.mem_cons_of_mem c hb)) hE
          simp only [serializeItems, List.map_cons, List.flatten_cons] at hser ⊢
          rw [hser]
          rfl
      · rw [if_neg hc] at hok
        cases hH : pushHeader c rest with
        | error e => rw [hH] at hok; cases hok
        | ok p =>
          obtain ⟨hlen, datasize⟩ := p
          rw [hH] at hok
          simp only at hok
          by_cases hlt : ((rest.drop hlen).take datasize).length < datasize
          · rw [if_pos hlt] at hok; cases hok
          · rw [if_neg hlt] at hok
            cases hE : rawIterAux f ((rest.drop hlen).drop datasize)
                (i + 1 + hlen + datasize) with
            | error e => rw [hE] at hok; cases hok
            | ok items' =>
              rw [hE] at hok
              cases hok
              have hreclen : ((rest.drop hlen).drop datasize).length ≤ f := by
                have h1 := List.length_drop datasize (rest.drop hlen)
                have h2 := List.length_drop hlen rest
                omega
              have hser := ih ((rest.drop hlen).drop datasize) (i + 1 + hlen + datasize)
                items' hreclen
                (fun b hb => hbytes b
                  (List.mem_cons_of_mem c (List.mem_of_mem_drop (List.mem_of_mem_drop hb))))
                hE
              have hdlen : ((rest.drop hlen).take datasize).length = datasize := by
                have := List.length_take datasize (rest.drop hlen)
                omega
              simp only [serializeItems, List.map_cons, List.flatten_cons] at hser ⊢
              rw [hser]
              -- now case on the four header shapes to identify the source bytes
              by_cases h1 : c < OP_PUSHDATA1
              · have hcalc : pushHeader c rest = .ok (0, c) := by
                  unfold pushHeader
                  rw [if_pos h1]
                rw [hcalc] at hH
                simp only [Except.ok.injEq, Prod.mk.injEq] at hH
                obtain ⟨hl0, hdsc⟩ := hH
                subst hl0
                subst hdsc
                simp only [List.drop_zero] at hser hdlen ⊢
                simp only [serializeRawItem, if_pos h1]
                rw [List.cons_append, List.take_append_drop]
              · by_cases h2 : c = OP_PUSHDATA1
                · subst h2
                  match rest, hH, hser, hdlen with
                  | b0 :: rest1, hH, hser, hdlen =>
                    have hcalc : pushHeader OP_PUSHDATA1 (b0 :: rest1) = .ok (1, b0) := rfl
                    rw [hcalc] at hH
                    simp only [Except.ok.injEq, Prod.mk.injEq] at hH
                    obtain ⟨hl1, hdsc⟩ := hH
                    subst hl1
                    subst hdsc
                    simp only [List.drop_succ_cons, List.drop_zero] at hser hdlen ⊢
                    have hserIt : serializeRawItem ⟨OP_PUSHDATA1, some (rest1.take b0), i⟩
                        = OP_PUSHDATA1 :: (rest1.take b0).length :: rest1.take b0 := rfl
                    rw [hserIt, hdlen, List.cons_append, List.cons_append,
                      List.take_append_drop]
                · by_cases h3 : c = OP_PUSHDATA2
                  · subst h3
                    match rest, hH, hser, hdlen, hbytes with
                    | b0 :: b1 :: rest2, hH, hser, hdlen, hbytes =>
                      have hcalc : pushHeader OP_PUSHDATA2 (b0 :: b1 :: rest2)
                          = .ok (2, b0 + (b1 <<< 8)) := rfl
                      rw [hcalc] at hH
                      simp only [Except.ok.injEq, Prod.mk.injEq] at hH
                      obtain ⟨hl2, hdsc⟩ := hH
                      subst hl2
                      have hb0 : b0 < 256 := hbytes b0 (by simp)
                      have hb1 : b1 < 256 := hbytes b1 (by simp)
                      have hsh : b1 <<< 8 = b1 * 256 := by rw [Nat.shiftLeft_eq]
                      simp only [List.drop_succ_cons, List.drop_zero] at hser hdlen ⊢
                      have hserIt : serializeRawItem ⟨OP_PUSHDATA2, some (rest2.take datasize), i⟩
                          = OP_PUSHDATA2 :: (rest2.take datasize).length % 256 ::
                            (rest2.take datasize).length / 256 :: rest2.take datasize := rfl
                      rw [hserIt, hdlen]
                      have hmod : datasize % 256 = b0 := by omega
                      have hdiv : datasize / 256 = b1 := by omega
                      rw [hmod, hdiv, List.cons_append, List.cons_append, List.cons_append,
                        List.take_append_drop]
                  · have h4 : c = OP_PUSHDATA4 := by
                      simp only [OP_PUSHDATA1, OP_PUSHDATA2, OP_PUSHDATA4] at h1 h2 h3 hc ⊢
                      omega
                    subst h4
                    match rest, hH, hser, hdlen, hbytes with
                    | b0 :: b1 :: b2 :: b3 :: rest4, hH, hser, hdlen, hbytes =>
                      have hcalc : pushHeader OP_PUSHDATA4 (b0 :: b1 :: b2 :: b3 :: rest4)
                          = .ok (4, b0 + (b1 <<< 8) + (b2 <<< 16) + (b3 <<< 24)) := rfl
                      rw [hcalc] at hH
                      simp only [Except.ok.injEq, Prod.mk.injEq] at hH
                      obtain ⟨hl4, hdsc⟩ := hH
                      subst hl4
                      have hb0 : b0 < 256 := hbytes b0 (by simp)
                      have hb1 : b1 < 256 := hbytes b1 (by simp)
                      have hb2 : b2 < 256 := hbytes b2 (by simp)
                      have hb3 : b3 < 256 := hbytes b3 (by simp)
                      have hsh1 : b1 <<< 8 = b1 * 256 := by rw [Nat.shiftLeft_eq]
                      have hsh2 : b2 <<< 16 = b2 * 65536 := by rw [Nat.shiftLeft_eq]
                      have hsh3 : b3 <<< 24 = b3 * 16777216 := by rw [Nat.shiftLeft_eq]
                      simp only [List.drop_succ_cons, List.drop_zero] at hser hdlen ⊢
                      have hserIt : serializeRawItem ⟨OP_PUSHDATA4, some (rest4.take datasize), i⟩
                          = OP_PUSHDATA4 :: (rest4.take datasize).length % 256 ::
                            (rest4.take datasize).length / 256 % 256 ::
                            (rest4.take datasize).length / 2 ^ 16 % 256 ::
                            (rest4.take datasize).length / 2 ^ 24 :: rest4.take datasize := rfl
                      rw [hserIt, hdlen]
                      have hm0 : datasize % 256 = b0 := by omega
                      have hm1 : datasize / 256 % 256 = b1 := by omega
                      have hm2 : datasize / 2 ^ 16 % 256 = b2 := by
                        have hp : (2 : Nat) ^ 16 = 65536 := by norm_num
                        omega
                      have hm3 : datasize / 2 ^ 24 = b3 := by
                        have hp : (2 : Nat) ^ 24 = 16777216 := by norm_num
                        omega
                      rw [hm0, hm1, hm2, hm3, List.cons_append, List.cons_append,
                        List.cons_append, List.cons_append, List.cons_append,
                        List.take_append_drop]

theorem rawIterFrom_trunc (c : Nat) (rest : List Nat) (i hlen datasize : Nat)
    (hc : ¬c > OP_PUSHDATA4) (hh : pushHeader c rest = .ok (hlen, datasize))
    (hshort : (rest.drop hlen).length < datasize) :
    rawIterFrom (c :: rest) i = .error (.truncated (rest.drop hlen)) := by
  rw [rawIterFrom_push c rest i hlen datasize hc hh]
  have htake : (rest.drop hlen).take datasize = rest.drop hlen :=
    List.take_of_length_le (by omega)
  rw [htake, if_pos hshort]

/-- Claim C6: (1) cooked iteration fails with exactly the structural decode
errors of raw iteration; (2) on success every instruction reassembles to its
exact source bytes — never a silently short read; (3) a push-length header
running past the end of the buffer raises the `CScriptInvalidError`
condition at whatever offset the walk has reached; (4) a declared payload
running past the end raises `CScriptTruncatedPushDataError` carrying exactly
the partial payload bytes recovered so far. -/
theorem claim_C6 :
    (∀ (s : List Nat) (e : ScriptErr), cookedIter s = .error e ↔ rawIter s = .error e) ∧
    (∀ (s : List Nat) (items : List RawItem), (∀ b ∈ s, b < 256) →
      rawIter s = .ok items → serializeItems items = s) ∧
    (∀ (c : Nat) (rest : List Nat) (i : Nat),
      ((c = OP_PUSHDATA1 ∧ rest.length < 1) ∨ (c = OP_PUSHDATA2 ∧ rest.length < 2) ∨
        (c = OP_PUSHDATA4 ∧ rest.length < 4)) →
      rawIterFrom (c :: rest) i = .error .invalid) ∧
    (∀ (c : Nat) (rest : List Nat) (i hlen datasize : Nat),
      ¬c > OP_PUSHDATA4 → pushHeader c rest = .ok (hlen, datasize) →
      (rest.drop hlen).length < datasize →
      rawIterFrom (c :: rest) i = .error (.truncated (rest.drop hlen))) := by
  refine ⟨?_, ?_, ?_, rawIterFrom_trunc⟩
  · intro s e
    unfold cookedIter
    cases h : rawIter s with
    | ok items => simp
    | error e2 => simp
  · intro s items hbytes hok
    exact rawIterAux_serialize s.length s 0 items le_rfl hbytes hok
  · intro c rest i h
    have hc : ¬c > OP_PUSHDATA4 := by
      rcases h with ⟨rfl, _⟩ | ⟨rfl, _⟩ | ⟨rfl, _⟩ <;> decide
    exact rawIterFrom_header_err c rest i .invalid hc (pushHeader_err_short c rest h)

theorem claim_C6_witness :
    rawIterFrom [0x4C, 5, 1, 2] 0 = .error (.truncated [1, 2]) ∧
    cookedIter [0x4C, 5, 1, 2] = .error (.truncated [1, 2]) := by
  have h4 := claim_C6.2.2.2 0x4C [5, 1, 2] 0 1 5 (by decide) rfl (by decide)
  have hraw : rawIterFrom [0x4C, 5, 1, 2] 0 = .error (.truncated [1, 2]) := by
    simpa using h4
  exact ⟨hraw, (claim_C6.1 [0x4C, 5, 1, 2] (.truncated [1, 2])).mpr hraw⟩

/-- Claim C2 (refuted by the code): the claim says accurate-mode counting of
a multi-signature check adds the decoded operand count of the preceding
small-integer push, returning 2 on `[OP_2, OP_CHECKMULTISIG]`.  The code
calls `opcode.decode_op_n()` — decoding the multisig opcode itself (0xAE)
instead of `lastOpcode` — which raises `ValueError`, so accurate mode never
returns a count whenever its branch is taken.  Non-accurate mode adds the
fixed bound 20 as claimed, and single-signature checks add 1. -/
theorem claim_C2_bug :
    GetSigOpCount [0x52, 0xAE] true = none ∧
    GetSigOpCount [0x52, 0xAE] false = some 20 ∧
    GetSigOpCount [0xAC] false = some 1 ∧
    GetSigOpCount [0xAC] true = some 1 ∧
    decode_op_n OP_CHECKMULTISIG = none :=
  ⟨rfl, rfl, rfl, rfl, rfl⟩

theorem fadLoop_nil (s sig : List Nat) (r : List Nat) (last : Nat) (skip : Bool) :
    fadLoop s sig [] r last skip = if !skip then r ++ s.drop last else r := rfl

theorem fadLoop_cons (s sig : List Nat) (it : RawItem) (rest : List RawItem)
    (r : List Nat) (last : Nat) (skip : Bool) :
    fadLoop s sig (it :: rest) r last skip =
      fadLoop s sig rest
        (if !skip then r ++ (s.drop last).take (it.idx - last) else r) it.idx
        (decide ((s.drop it.idx).take sig.length = sig)) := rfl

theorem fadLoop_acc (s sig : List Nat) :
    ∀ (items : List RawItem) (r : List Nat) (last : Nat) (skip : Bool),
      fadLoop s sig items r last skip = r ++ fadLoop s sig items [] last skip := by
  intro items
  induction items with
  | nil =>
    intro r last skip
    rw [fadLoop_nil, fadLoop_nil]
    cases skip <;> simp
  | cons it rest ih =>
    intro r last skip
    rw [fadLoop_cons, fadLoop_cons,
      ih (if !skip then r ++ (s.drop last).take (it.idx - last) else r),
      ih (if !skip then [] ++ (s.drop last).take (it.idx - last) else [])]
    cases skip <;> simp

theorem fadLoop_kept (s sig : List Nat) :
    ∀ (items : List RawItem) (last : Nat) (skip : Bool),
      fadLoop s sig items [] last skip =
        (if skip then [] else (s.drop last).take (segStop s items - last))
          ++ keptBytes s sig items := by
  intro items
  induction items with
  | nil =>
    intro last skip
    rw [fadLoop_nil]
    cases skip with
    | true => rfl
    | false =>
      show [] ++ s.drop last = (s.drop last).take (s.length - last) ++ []
      rw [List.nil_append, List.append_nil,
        List.take_of_length_le (by rw [List.length_drop])]
  | cons it rest ih =>
    intro last skip
    rw [fadLoop_cons, fadLoop_acc, ih]
    show _ = (if skip then [] else (s.drop last).take (it.idx - last)) ++
      ((if (s.drop it.idx).take sig.length = sig then []
        else (s.drop it.idx).take (segStop s rest - it.idx)) ++ keptBytes s sig rest)
    by_cases hP : (s.drop it.idx).take sig.length = sig
    · cases skip <;> simp [hP]
    · cases skip <;> simp [hP]

/-- Claim C7: for every script that raw-iterates without error and every
byte pattern, `FindAndDelete` returns exactly the concatenation, in original
order, of the verbatim source bytes of those instructions at whose offset
the next `len(pattern)` bytes do not equal the pattern; every retained
instruction's original byte range is copied verbatim and every matching
instruction is excluded. -/
theorem claim_C7 (s sig : List Nat) (items : List RawItem)
    (h : rawIter s = .ok items) :
    FindAndDelete s sig = .ok (keptBytes s sig items) := by
  have heq : FindAndDelete s sig = .ok (fadLoop s sig items [] 0 true) := by
    unfold FindAndDelete
    rw [h]
  rw [heq, fadLoop_kept]
  simp

theorem claim_C7_witness :
    FindAndDelete [0x51, 1, 0xAB, 0x52] [1, 0xAB] = .ok [0x51, 0x52] := by
  have h := claim_C7 [0x51, 1, 0xAB, 0x52] [1, 0xAB]
    [⟨0x51, none, 0⟩, ⟨1, some [0xAB], 1⟩, ⟨0x52, none, 3⟩] rfl
  exact h.trans (by rfl)

theorem rawIterFrom_push_exact (c : Nat) (hdr d rest : List Nat) (i : Nat)
    (hc : ¬c > OP_PUSHDATA4)
    (hh : pushHeader c (hdr ++ d ++ rest) = .ok (hdr.length, d.length)) :
    rawIterFrom (c :: (hdr ++ d ++ rest)) i =
      match rawIterFrom rest (i + 1 + hdr.length + d.length) with
      | .ok items => .ok (⟨c, some d, i⟩ :: items)
      | .error e => .error e := by
  rw [rawIterFrom_push c (hdr ++ d ++ rest) i hdr.length d.length hc hh]
  have hbody : (hdr ++ d ++ rest).drop hdr.length = d ++ rest := by
    rw [List.append_assoc, List.drop_left]
  rw [hbody, List.take_left d rest, if_neg (by omega), List.drop_left d rest]

set_option maxHeartbeats 1000000 in
theorem build_cooked_aux : ∀ (vs : List Coercable), (∀ v ∈ vs, goodVal v = true) →
    ∀ (i : Nat), ∃ (s : List Nat) (items : List RawItem),
      buildScript vs = some s ∧ rawIterFrom s i = .ok items ∧
      items.map cookedOf = vs.map toCookedVal := by
  intro vs
  induction vs with
  | nil =>
    intro _ i
    exact ⟨[], [], rfl, rfl, rfl⟩
  | cons v vs ih =>
    intro hgood i
    have hgv := hgood v (List.mem_cons_self v vs)
    have ihv := ih (fun w hw => hgood w (List.mem_cons_of_mem v hw))
    match v, hgv with
    | .op c, hgv =>
      simp only [goodVal, Bool.and_eq_true, decide_eq_true_eq,
        Bool.not_eq_true'] at hgv
      obtain ⟨⟨hc1, _⟩, hsmall⟩ := hgv
      obtain ⟨s', items', hbuild', hraw', hmap'⟩ := ihv (i + 1)
      refine ⟨c :: s', ⟨c, none, i⟩ :: items', ?_, ?_, ?_⟩
      · show (match coerce (.op c), buildScript vs with
          | some bv, some rest => some (bv ++ rest)
          | _, _ => none) = some (c :: s')
        rw [hbuild']
        rfl
      · rw [rawIterFrom_op c s' i hc1, hraw']
      · simp only [List.map_cons, hmap', cookedOf, hsmall, List.map]
        rfl
    | .int n, hgv =>
      simp only [goodVal, Bool.and_eq_true, decide_eq_true_eq] at hgv
      obtain ⟨h1, h16⟩ := hgv
      have htn1 : 1 ≤ n.toNat := by omega
      have htn16 : n.toNat ≤ 16 := by omega
      have hcoerce : coerce (.int n) = some [0x50 + n.toNat] := by
        have h80 : OP_1 + n.toNat - 1 = 0x50 + n.toNat := by
          unfold OP_1
          omega
        simp only [coerce, if_pos (⟨by omega, h16⟩ : 0 ≤ n ∧ n ≤ 16), encode_op_n,
          if_pos htn16, if_neg (by omega : ¬n.toNat = 0), Option.map_some', h80]
      obtain ⟨s', items', hbuild', hraw', hmap'⟩ := ihv (i + 1)
      refine ⟨(0x50 + n.toNat) :: s', ⟨0x50 + n.toNat, none, i⟩ :: items', ?_, ?_, ?_⟩
      · show (match coerce (.int n), buildScript vs with
          | some bv, some rest => some (bv ++ rest)
          | _, _ => none) = some ((0x50 + n.toNat) :: s')
        rw [hcoerce, hbuild']
        rfl
      · rw [rawIterFrom_op (0x50 + n.toNat) s' i (by unfold OP_PUSHDATA4; omega), hraw']
      · simp only [List.map_cons, hmap']
        congr 1
        show cookedOf ⟨0x50 + n.toNat, none, i⟩ = .num n
        have hsm : is_small_int (0x50 + n.toNat) = true := by
          unfold is_small_int
          rw [if_pos (Or.inl ⟨by omega, by omega⟩)]
        have hdec : decode_op_n (0x50 + n.toNat) = some n.toNat := by
          unfold decode_op_n OP_0 OP_1 OP_16
          rw [if_neg (by omega), if_neg (by omega)]
          congr 1
          omega
        simp only [cookedOf, hsm, if_true, hdec, Option.getD_some]
        congr 1
        omega
    | .bytes bs, hgv =>
      simp only [goodVal, decide_eq_true_eq] at hgv
      by_cases hl1 : bs.length < OP_PUSHDATA1
      · have hcoerce : coerce (.bytes bs) = some (bs.length :: bs) := by
          simp only [coerce, encode_op_pushdata, if_pos hl1]
        obtain ⟨s', items', hbuild', hraw', hmap'⟩ := ihv (i + 1 + 0 + bs.length)
        refine ⟨bs.length :: (bs ++ s'), ⟨bs.length, some bs, i⟩ :: items', ?_, ?_, ?_⟩
        · show (match coerce (.bytes bs), buildScript vs with
            | some bv, some rest => some (bv ++ rest)
            | _, _ => none) = some (bs.length :: (bs ++ s'))
          rw [hcoerce, hbuild']
          rfl
        · have hh : pushHeader bs.length (([] : List Nat) ++ bs ++ s')
              = .ok (([] : List Nat).length, bs.length) := by
            unfold pushHeader
            rw [if_pos hl1]
            rfl
          have hstep := rawIterFrom_push_exact bs.length [] bs s' i
            (by unfold OP_PUSHDATA1 at hl1; unfold OP_PUSHDATA4; omega) hh
          simp only [List.nil_append, List.length_nil] at hstep
          rw [hstep, hraw']
        · simp only [List.map_cons, hmap']
          rfl
      · by_cases hl2 : bs.length ≤ 0xFF
        · have hcoerce : coerce (.bytes bs) = some (OP_PUSHDATA1 :: bs.length :: bs) := by
            simp only [coerce, encode_op_pushdata, if_neg hl1, if_pos hl2]
          obtain ⟨s', items', hbuild', hraw', hmap'⟩ := ihv (i + 1 + 1 + bs.length)
          refine ⟨OP_PUSHDATA1 :: bs.length :: (bs ++ s'),
            ⟨OP_PUSHDATA1, some bs, i⟩ :: items', ?_, ?_, ?_⟩
          · show (match coerce (.bytes bs), buildScript vs with
              | some bv, some rest => some (bv ++ rest)
              | _, _ => none) = some (OP_PUSHDATA1 :: bs.length :: (bs ++ s'))
            rw [hcoerce, hbuild']
            rfl
          · have hh : pushHeader OP_PUSHDATA1 ([bs.length] ++ bs ++ s')
                = .ok ([bs.length].length, bs.length) := rfl
            have hstep := rawIterFrom_push_exact OP_PUSHDATA1 [bs.length] bs s' i
              (by decide) hh
            simp only [List.singleton_append, List.cons_append, List.nil_append,
              List.length_singleton] at hstep
            rw [hstep, hraw']
          · simp only [List.map_cons, hmap']
            rfl
        · by_cases hl3 : bs.length ≤ 0xFFFF
          · have hcoerce : coerce (.bytes bs)
                = some (OP_PUSHDATA2 :: bs.length % 256 :: bs.length / 256 :: bs) := by
              simp only [coerce, encode_op_pushdata, if_neg hl1, if_neg hl2, if_pos hl3]
            obtain ⟨s', items', hbuild', hraw', hmap'⟩ := ihv (i + 1 + 2 + bs.length)
            refine ⟨OP_PUSHDATA2 :: bs.length % 256 :: bs.length / 256 :: (bs ++ s'),
              ⟨OP_PUSHDATA2, some bs, i⟩ :: items', ?_, ?_, ?_⟩
            · show (match coerce (.bytes bs), buildScript vs with
                | some bv, some rest => some (bv ++ rest)
                | _, _ => none)
                = some (OP_PUSHDATA2 :: bs.length % 256 :: bs.length / 256 :: (bs ++ s'))
              rw [hcoerce, hbuild']
              rfl
            · have hh : pushHeader OP_PUSHDATA2
                  ([bs.length % 256, bs.length / 256] ++ bs ++ s')
                  = .ok ([bs.length % 256, bs.length / 256].length, bs.length) := by
                have hrfl : pushHeader OP_PUSHDATA2
                    ([bs.length % 256, bs.length / 256] ++ bs ++ s')
                    = .ok (2, bs.length % 256 + ((bs.length / 256) <<< 8)) := rfl
                rw [hrfl]
                congr 2
                rw [Nat.shiftLeft_eq]
                omega
              have hstep := rawIterFrom_push_exact OP_PUSHDATA2
                [bs.length % 256, bs.length / 256] bs s' i (by decide) hh
              simp only [List.cons_append, List.singleton_append, List.nil_append,
                List.length_cons, List.length_singleton, List.length_nil] at hstep
              rw [hstep, hraw']
            · simp only [List.map_cons, hmap']
              rfl
          · have hl4 : bs.length ≤ 0xFFFFFFFF := hgv
            have hcoerce : coerce (.bytes bs)
                = some (OP_PUSHDATA4 :: bs.length % 256 :: bs.length / 256 % 256 ::
                  bs.length / 2 ^ 16 % 256 :: bs.length / 2 ^ 24 :: bs) := by
              simp only [coerce, encode_op_pushdata, if_neg hl1, if_neg hl2, if_neg hl3,
                if_pos hl4]
            obtain ⟨s', items', hbuild', hraw', hmap'⟩ := ihv (i + 1 + 4 + bs.length)
            refine ⟨OP_PUSHDATA4 :: bs.length % 256 :: bs.length / 256 % 256 ::
              bs.length / 2 ^ 16 % 256 :: bs.length / 2 ^ 24 :: (bs ++ s'),
              ⟨OP_PUSHDATA4, some bs, i⟩ :: items', ?_, ?_, ?_⟩
            · show (match coerce (.bytes bs), buildScript vs with
                | some bv, some rest => some (bv ++ rest)
                | _, _ => none)
                = some (OP_PUSHDATA4 :: bs.length % 256 :: bs.length / 256 % 256 ::
                  bs.length / 2 ^ 16 % 256 :: bs.length / 2 ^ 24 :: (bs ++ s'))
              rw [hcoerce, hbuild']
              rfl
            · have key : ∀ (x0 x1 x2 x3 : Nat),
                  x0 + (x1 <<< 8) + (x2 <<< 16) + (x3 <<< 24) = bs.length →
                  pushHeader OP_PUSHDATA4 ([x0, x1, x2, x3] ++ bs ++ s')
                    = .ok ([x0, x1, x2, x3].length, bs.length) := by
                intro x0 x1 x2 x3 hsum
                have hrfl : pushHeader OP_PUSHDATA4 ([x0, x1, x2, x3] ++ bs ++ s')
                    = .ok (4, x0 + (x1 <<< 8) + (x2 <<< 16) + (x3 <<< 24)) := rfl
                rw [hrfl, hsum]
                rfl
              have hh := key (bs.length % 256) (bs.length / 256 % 256)
                (bs.length / 2 ^ 16 % 256) (bs.length / 2 ^ 24) (by
                  rw [Nat.shiftLeft_eq, Nat.shiftLeft_eq, Nat.shiftLeft_eq]
                  have e16 : (2 : Nat) ^ 16 = 65536 := by norm_num
                  have e24 : (2 : Nat) ^ 24 = 16777216 := by norm_num
                  omega)
              have hstep := rawIterFrom_push_exact OP_PUSHDATA4
                [bs.length % 256, bs.length / 256 % 256, bs.length / 2 ^ 16 % 256,
                  bs.length / 2 ^ 24] bs s' i (by decide) hh
              simp only [List.cons_append, List.singleton_append, List.nil_append,
                List.length_cons, List.length_singleton, List.length_nil] at hstep
              rw [hstep, hraw']
            · simp only [List.map_cons, hmap']
              rfl

/-- Claim C8 (refuted as stated): building a Script from the single native
integer 0 and cooked-iterating yields the empty byte string, not the
integer 0 back. -/
theorem claim_C8_counterexample :
    buildScript [Coercable.int 0] = some [0] ∧
    cookedIter [0] = .ok [SItem.data []] ∧
    SItem.data [] ≠ toCookedVal (Coercable.int 0) :=
  ⟨rfl, rfl, by decide⟩

/-- Claim C8 (amended): for every finite sequence of opcodes that carry no
inline data and are not small-integer pushes (byte value above the last
push opcode and outside the small-int range), native integers in `[1, 16]`,
and raw byte strings of pushdata-encodable length, building a Script from
the sequence and cooked-iterating the result reproduces the original
logical sequence of values. -/
theorem claim_C8 (vs : List Coercable) (hgood : ∀ v ∈ vs, goodVal v = true) :
    ∃ s, buildScript vs = some s ∧ cookedIter s = .ok (vs.map toCookedVal) := by
  obtain ⟨s, items, hbuild, hraw, hmap⟩ := build_cooked_aux vs hgood 0
  refine ⟨s, hbuild, ?_⟩
  have hraw0 : rawIter s = .ok items := hraw
  have heq : cookedIter s = .ok (items.map cookedOf) := by
    unfold cookedIter
    rw [hraw0]
  rw [heq, hmap]

theorem claim_C8_witness :
    ∃ s, buildScript [Coercable.op 0xAC, Coercable.int 5, Coercable.bytes [1, 2, 3]]
        = some s ∧
      cookedIter s = .ok ([Coercable.op 0xAC, Coercable.int 5,
        Coercable.bytes [1, 2, 3]].map toCookedVal) :=
  claim_C8 [Coercable.op 0xAC, Coercable.int 5, Coercable.bytes [1, 2, 3]] (by decide)

end Sapio
